import Mathlib

/-!
Verification of the scene-analyzer service
(src/ai-services/services/scene-analyzer/app.py).

Shallow embedding conventions:
* Python floats are modelled as rationals (ℚ): every claim under scrutiny is
  about structural / order / averaging behaviour, not floating-point rounding.
* Subprocess and HTTP collaborators are environmental: their outputs
  (scene-cut timestamps, HTTP responses) are inputs to the embedded functions.
  An `Option`/`Except` `none`/`error` models a raised Python exception
  (connection error, retries exhausted, OSError, ...).
* Python `while` loops are embedded as fuel-indexed recursion; the fuel chosen
  at the call site is proved sufficient whenever the Python loop terminates.
-/

set_option linter.unusedVariables false

namespace SceneAnalyzer

/-- A scene record, as built by the segmentation functions in app.py:
the Python dict with keys start / end / duration (the stored duration is
whatever expression the source stores, not always end minus start). -/
structure Scene where
  start : ℚ
  end_ : ℚ
  dur : ℚ
  deriving DecidableEq, Repr

/-- Boolean check that a list of scenes forms a contiguous chain from a to d:
first scene starts at a, each scene has start ≤ end, consecutive scenes share
an endpoint, and the last scene ends at d (an empty list requires a = d). -/
def chainFrom (a d : ℚ) : List Scene → Bool
  | [] => a == d
  | s :: rest => (s.start == a) && (s.start ≤ s.end_) && chainFrom s.end_ d rest

/-- The union of the half-open spans [start, end) of the scenes in the list. -/
def sceneSpans (l : List Scene) : Set ℚ :=
  ⋃ s ∈ l, Set.Ico s.start s.end_

/-- Core of extract_scenes_transnetv2 / extract_scenes_ffmpeg (app.py lines
173-191 and 274-293): walk the boundary timestamps with a previous-boundary
cursor prev (initially 0.0); a timestamp is accepted only when it is at least
minLen past prev, producing the scene dict
  \x7bstart: prev, end: min(t, duration), duration: min(t - prev, duration - prev)\x7d
and moving the cursor; a rejected timestamp is discarded without moving the
cursor.  After the loop, if prev < duration a final scene
[prev, duration] is appended. -/
def buildScenes (minLen duration : ℚ) (prev : ℚ) : List ℚ → List Scene
  | [] =>
    if prev < duration then [⟨prev, duration, duration - prev⟩] else []
  | t :: ts =>
    if minLen ≤ t - prev then
      ⟨prev, min t duration, min (t - prev) (duration - prev)⟩ ::
        buildScenes minLen duration t ts
    else
      buildScenes minLen duration prev ts

/-- extract_scenes_transnetv2 (app.py lines 119-196), given the boundary
timestamps already derived from the model probabilities and the frame rate
(those come from the external model / prober, both environmental here):
minimum 1-second scenes. -/
def extract_scenes_transnetv2 (timestamps : List ℚ) (duration : ℚ) : List Scene :=
  buildScenes 1 duration 0 timestamps

/-- extract_scenes_ffmpeg (app.py lines 232-298), given the pts timestamps
parsed from the scene-cut filter output (environmental): minimum 2-second
scenes. -/
def extract_scenes_ffmpeg (timestamps : List ℚ) (duration : ℚ) : List Scene :=
  buildScenes 2 duration 0 timestamps

/-- One step of the while-loop of extract_scenes_sampling (app.py lines
213-222), fuel-indexed: while current < duration, emit
  \x7bstart: current, end: min(current + interval, duration), duration: next - current\x7d
advancing current to the emitted end. -/
def sampleGo (interval duration : ℚ) : ℚ → ℕ → List Scene
  | _, 0 => []
  | current, fuel + 1 =>
    if current < duration then
      let next := min (current + interval) duration
      ⟨current, next, next - current⟩ :: sampleGo interval duration next fuel
    else []

/-- extract_scenes_sampling (app.py lines 199-229).  The fuel ⌈duration /
interval⌉ is exactly the number of iterations the Python while-loop performs
when interval > 0 (the loop never terminates when interval ≤ 0); the
sufficiency of the fuel is proved below. -/
def extract_scenes_sampling (interval duration : ℚ) : List Scene :=
  sampleGo interval duration 0 (Int.toNat ⌈duration / interval⌉)

/-- The zero-scene fallback of analyze_video (app.py lines 422-427): when
segmentation produced no scenes, the whole video becomes the single scene
\x7bstart: 0, end: duration, duration: duration\x7d. -/
def withFallback (duration : ℚ) (scenes : List Scene) : List Scene :=
  if scenes.isEmpty then [⟨0, duration, duration⟩] else scenes

/-- The three segmentation strategies dispatched by extract_scenes
(app.py lines 301-322). -/
inductive Method where
  | transnetv2
  | ffmpeg
  | sampling
  deriving DecidableEq, Repr

/-- Strategy dispatch of extract_scenes: the AI and filter strategies consume
the externally produced boundary timestamps, the sampling strategy the
interval. -/
def segmentScenes (m : Method) (timestamps : List ℚ) (interval duration : ℚ) :
    List Scene :=
  match m with
  | .transnetv2 => extract_scenes_transnetv2 timestamps duration
  | .ffmpeg => extract_scenes_ffmpeg timestamps duration
  | .sampling => extract_scenes_sampling interval duration

/-! ### Frame scoring, aggregation and the per-request pipeline -/

/-- JSON body of a nudity/immodesty collaborator response together with its
HTTP status; absent fields model `dict.get(key, 0)` defaulting. -/
structure NsfwResp where
  status : ℕ
  nudity : Option ℚ
  immodesty : Option ℚ
  deriving DecidableEq, Repr

/-- The `violence` field of the content-classifier response: either a bare
number (old format) or a category dict (new format) whose `general_violence`
key may be absent. -/
inductive VioField where
  | num (v : ℚ)
  | dict (general_violence : Option ℚ)
  deriving DecidableEq, Repr

/-- JSON body of a content-classifier response with its HTTP status; an
absent `violence` field defaults to the number 0 via `.get('violence', 0)`. -/
structure VioResp where
  status : ℕ
  violence : Option VioField
  deriving DecidableEq, Repr

/-- Environmental outcome of processing one frame: whether frame extraction
returns, and each collaborator call's outcome.  `none` models a raised
requests exception — connection error, timeout, or retries exhausted on
502/503/504 (the urllib3 Retry configured at app.py lines 21-30 raises after
its 5 attempts rather than returning the final response). -/
structure FrameEnv where
  extract_ok : Bool
  nsfw : Option NsfwResp
  violence : Option VioResp
  deriving DecidableEq, Repr

/-- Normalization of the violence response (app.py lines 477-485): take the
`violence` field (default 0), and for the dict format extract
`general_violence` (default 0). -/
def vioScoreOf (v : VioResp) : ℚ :=
  match v.violence.getD (VioField.num 0) with
  | .num x => x
  | .dict g => g.getD 0

/-- Effect of the per-frame loop body (app.py lines 453-492) for one frame:
which score each axis list receives, whether the temp frame file was created,
and whether `os.remove` ran.  The body is sequential — extraction, the
nudity/immodesty call, the violence call, then the remove; a raised exception
at any step is caught by the per-frame handler which merely `continue`s,
skipping the remaining steps (including the remove).  A non-200 status is not
an exception: it just skips that collaborator's appends. -/
structure FrameOut where
  nud : Option ℚ
  imm : Option ℚ
  vio : Option ℚ
  created : Bool
  removed : Bool
  deriving DecidableEq, Repr

def processFrame (e : FrameEnv) : FrameOut :=
  if e.extract_ok then
    match e.nsfw with
    | none => ⟨none, none, none, true, false⟩
    | some r =>
      let nud := if r.status = 200 then some (r.nudity.getD 0) else none
      let imm := if r.status = 200 then some (r.immodesty.getD 0) else none
      match e.violence with
      | none => ⟨nud, imm, none, true, false⟩
      | some v =>
        let vio := if v.status = 200 then some (vioScoreOf v) else none
        ⟨nud, imm, vio, true, true⟩
  else ⟨none, none, none, false, false⟩

/-- The three per-scene score lists (nudity, immodesty, violence) accumulated
over the scene's frames in order (app.py lines 449-492). -/
def collectScores : List FrameEnv → List ℚ × List ℚ × List ℚ
  | [] => ([], [], [])
  | e :: rest =>
    let o := processFrame e
    let (ns, ims, vs) := collectScores rest
    (o.nud.toList ++ ns, o.imm.toList ++ ims, o.vio.toList ++ vs)

/-- `sum(scores)/len(scores) if scores else 0` (app.py lines 495-497). -/
def avgScore (l : List ℚ) : ℚ :=
  if l.isEmpty then 0 else l.sum / (l.length : ℚ)

/-- The analysis object of a scene result (app.py lines 506-511). -/
structure Analysis where
  nudity : ℚ
  immodesty : ℚ
  violence : ℚ
  confidence : ℚ
  deriving DecidableEq, Repr

/-- Aggregation (app.py lines 494-511): per-axis averages with empty-list
default 0; confidence is the max of the three averages when at least one of
the lists is nonempty (`any([...])` on the three lists), else 0. -/
def aggregate (ns ims vs : List ℚ) : Analysis :=
  let avg_nudity := avgScore ns
  let avg_violence := avgScore vs
  let avg_immodesty := avgScore ims
  let confidence :=
    if ¬ ns.isEmpty ∨ ¬ vs.isEmpty ∨ ¬ ims.isEmpty then
      max (max avg_nudity avg_violence) avg_immodesty
    else 0
  ⟨avg_nudity, avg_immodesty, avg_violence, confidence⟩

/-- Per-scene frame-timestamp selection (app.py lines 436-446).  When
`scene_duration < sample_count` the single midpoint is used; otherwise the
loop computes `start + scene_duration * j / (sample_count - 1)` for
j in range(sample_count) — for sample_count = 1 this divides by zero on the
first iteration and raises ZeroDivisionError (for sample_count = 0 the range
is empty and no division is evaluated). -/
def sampleTimestamps (s : Scene) (sample_count : ℕ) : Except String (List ℚ) :=
  let scene_duration := s.end_ - s.start
  if scene_duration < (sample_count : ℚ) then
    .ok [(s.start + s.end_) / 2]
  else if sample_count = 1 then
    .error "ZeroDivisionError"
  else
    .ok ((List.range sample_count).map
      (fun (j : ℕ) => s.start + scene_duration * (j : ℚ) / ((sample_count : ℚ) - 1)))

/-- One scene's report entry (span copied from the scene dict plus the
aggregated analysis). -/
structure SceneResult where
  start : ℚ
  end_ : ℚ
  dur : ℚ
  analysis : Analysis
  deriving DecidableEq, Repr

/-- A scene either yields its result or raises an exception that neither the
per-frame nor the per-scene except tuple catches. -/
inductive SceneOutcome where
  | ok (r : SceneResult)
  | uncaught (msg : String)
  deriving DecidableEq, Repr

/-- Per-scene processing (app.py lines 432-530): sample timestamps, run the
per-frame loop (frame i's environment is `env i`), aggregate.  A
ZeroDivisionError from the sampling arithmetic belongs to neither except
tuple — (requests.RequestException, OSError, subprocess.CalledProcessError,
ValueError, KeyError) — so it escapes as `uncaught`; collaborator/OS errors
inside the frame loop are confined to their frame by the per-frame guard
(modelled inside processFrame), leaving the per-scene zero-score fallback of
lines 517-530 with no reachable raiser on the modelled paths. -/
def processScene (s : Scene) (sample_count : ℕ) (env : ℕ → FrameEnv) :
    SceneOutcome :=
  match sampleTimestamps s sample_count with
  | .error e => .uncaught e
  | .ok ts =>
    let envs := (List.range ts.length).map env
    let (ns, ims, vs) := collectScores envs
    .ok ⟨s.start, s.end_, s.dur, aggregate ns ims vs⟩

/-- The scene loop (`for i, scene in enumerate(scenes)`, app.py line 432):
scenes are processed in order; a caught failure degrades only its scene,
while an uncaught exception propagates and aborts the whole request. -/
def runScenes (sample_count : ℕ) (env : ℕ → ℕ → FrameEnv) :
    ℕ → List Scene → Except String (List SceneResult)
  | _, [] => .ok []
  | i, s :: rest =>
    match processScene s sample_count (env i) with
    | .uncaught e => .error e
    | .ok r =>
      match runScenes sample_count env (i + 1) rest with
      | .error e => .error e
      | .ok rs => .ok (r :: rs)

/-- The JSON request body of POST /analyze (app.py lines 389-402);
`none` models an absent field, resolved by `dict.get` defaults. -/
structure AnalyzeRequest where
  video_path : Option String
  threshold : Option ℚ
  sample_count : Option ℕ
  scene_detection_method : Option String
  ffmpeg_scene_threshold : Option ℚ
  sampling_interval : Option ℚ

/-- Environment of one analyze request: whether the video file exists, the
probed duration, the AI model's boundary timestamps (none: model not loaded
or raised), the scene-cut filter's reported timestamps (the filter is invoked
with the requested sensitivity threshold; its diagnostic output is
environmental), and each scene's frames' outcomes. -/
structure Env where
  file_exists : Bool
  duration : ℚ
  transnetTs : Option (List ℚ)
  ffmpegTs : List ℚ
  frames : ℕ → ℕ → FrameEnv

/-- The handler's possible responses (app.py lines 391-543): 400 for a
missing video_path, 404 for a missing file, 200 with scene_count and the
per-scene results, and 500 for an internal failure (either the json error
response of line 543 or Flask's default page for an exception outside that
except tuple, e.g. ZeroDivisionError). -/
inductive Response where
  | badRequest
  | notFound
  | ok (scene_count : ℕ) (scenes : List SceneResult)
  | internalError
  deriving DecidableEq, Repr

/-- Strategy dispatch of extract_scenes (app.py lines 301-322): an
unrecognized method falls back to transnetv2; the AI strategy fails when the
model is unavailable (and that failure propagates).  The ffmpeg sensitivity
threshold is forwarded to the subprocess, whose reported timestamps are
`env.ffmpegTs`. -/
def extract_scenes (method : String) (env : Env) (interval : ℚ) :
    Except String (List Scene) :=
  if method = "transnetv2" then
    match env.transnetTs with
    | none => .error "TransNetV2 model not available"
    | some ts => .ok (extract_scenes_transnetv2 ts env.duration)
  else if method = "ffmpeg" then
    .ok (extract_scenes_ffmpeg env.ffmpegTs env.duration)
  else if method = "sampling" then
    .ok (extract_scenes_sampling interval env.duration)
  else
    match env.transnetTs with
    | none => .error "TransNetV2 model not available"
    | some ts => .ok (extract_scenes_transnetv2 ts env.duration)

/-- The POST /analyze handler analyze_video (app.py lines 382-543): validate
video_path, read the request fields into locals (threshold, read at line 396,
is never used afterwards), check the file, segment with the requested method,
apply the zero-scene fallback, run the scene loop, and assemble the response.
Segmentation failure and any exception the scene loop lets escape yield a
500-class response. -/
def analyze_video (req : AnalyzeRequest) (env : Env) : Response :=
  match req.video_path with
  | none => .badRequest
  | some _ =>
    let threshold := req.threshold.getD (3/20)
    let sample_count := req.sample_count.getD 3
    let scene_method := req.scene_detection_method.getD "transnetv2"
    let ffmpeg_threshold := req.ffmpeg_scene_threshold.getD (3/10)
    let sampling_interval := req.sampling_interval.getD 30
    if env.file_exists then
      match extract_scenes scene_method env sampling_interval with
      | .error _ => .internalError
      | .ok scenes0 =>
        let scenes := withFallback env.duration scenes0
        match runScenes sample_count env.frames 0 scenes with
        | .error _ => .internalError
        | .ok results => .ok scenes.length results
    else .notFound

/-- Environmental precondition for the score-bounds claim: any score a
collaborator actually returns lies in [0, 1] after the body's defaulting of
absent fields to 0. -/
def FrameEnv.bounded (e : FrameEnv) : Prop :=
  (∀ r, e.nsfw = some r →
    0 ≤ r.nudity.getD 0 ∧ r.nudity.getD 0 ≤ 1 ∧
      0 ≤ r.immodesty.getD 0 ∧ r.immodesty.getD 0 ≤ 1) ∧
  (∀ v, e.violence = some v → 0 ≤ vioScoreOf v ∧ vioScoreOf v ≤ 1)

/-! ### Properties of contiguous scene chains -/

lemma sceneSpans_nil : sceneSpans [] = ∅ := by
  simp [sceneSpans]

lemma sceneSpans_cons (s : Scene) (l : List Scene) :
    sceneSpans (s :: l) = Set.Ico s.start s.end_ ∪ sceneSpans l := by
  simp [sceneSpans]

lemma chainFrom_le {a d : ℚ} : ∀ {l : List Scene}, chainFrom a d l = true → a ≤ d := by
  intro l
  induction l generalizing a with
  | nil =>
    intro h
    simp [chainFrom] at h
    exact le_of_eq h
  | cons s rest ih =>
    intro h
    simp [chainFrom] at h
    obtain ⟨⟨hs, hse⟩, hrest⟩ := h
    calc a = s.start := hs.symm
      _ ≤ s.end_ := hse
      _ ≤ d := ih hrest

lemma chainFrom_start_ge {a d : ℚ} :
    ∀ {l : List Scene}, chainFrom a d l = true → ∀ s ∈ l, a ≤ s.start := by
  intro l
  induction l generalizing a with
  | nil => intro _ s hs; cases hs
  | cons t rest ih =>
    intro h s hs
    simp [chainFrom] at h
    obtain ⟨⟨ht, hte⟩, hrest⟩ := h
    rcases List.mem_cons.mp hs with rfl | hs
    · exact le_of_eq ht.symm
    · calc a = t.start := ht.symm
        _ ≤ t.end_ := hte
        _ ≤ s.start := ih hrest s hs

lemma chainFrom_spans {a d : ℚ} :
    ∀ {l : List Scene}, chainFrom a d l = true → sceneSpans l = Set.Ico a d := by
  intro l
  induction l generalizing a with
  | nil =>
    intro h
    simp [chainFrom] at h
    subst h
    simp [sceneSpans_nil]
  | cons s rest ih =>
    intro h
    simp [chainFrom] at h
    obtain ⟨⟨hs, hse⟩, hrest⟩ := h
    subst hs
    rw [sceneSpans_cons, ih hrest, Set.Ico_union_Ico_eq_Ico hse (chainFrom_le hrest)]

lemma chainFrom_sorted {a d : ℚ} :
    ∀ {l : List Scene}, chainFrom a d l = true →
      (l.map Scene.start).Sorted (· ≤ ·) := by
  intro l
  induction l generalizing a with
  | nil => intro _; simp
  | cons s rest ih =>
    intro h
    simp [chainFrom] at h
    obtain ⟨⟨hs, hse⟩, hrest⟩ := h
    rw [List.map_cons, List.sorted_cons]
    refine ⟨?_, ih hrest⟩
    intro b hb
    obtain ⟨t, ht, rfl⟩ := List.mem_map.mp hb
    exact le_trans hse (chainFrom_start_ge hrest t ht)

lemma chainFrom_pairwise {a d : ℚ} :
    ∀ {l : List Scene}, chainFrom a d l = true →
      l.Pairwise (fun s t => s.end_ ≤ t.start) := by
  intro l
  induction l generalizing a with
  | nil => intro _; simp
  | cons s rest ih =>
    intro h
    simp [chainFrom] at h
    obtain ⟨⟨hs, hse⟩, hrest⟩ := h
    rw [List.pairwise_cons]
    exact ⟨fun t ht => chainFrom_start_ge hrest t ht, ih hrest⟩

/-! ### Segmentation invariants -/

/-- The boundary walk yields a contiguous chain from its cursor to the
duration whenever every boundary lies at or before the end of the video. -/
lemma buildScenes_chain {minLen d : ℚ} (hmin : 0 < minLen) :
    ∀ (ts : List ℚ) (prev : ℚ), prev ≤ d → (∀ t ∈ ts, t ≤ d) →
      chainFrom prev d (buildScenes minLen d prev ts) = true := by
  intro ts
  induction ts with
  | nil =>
    intro prev hprev _
    by_cases h : prev < d
    · simp [buildScenes, h, chainFrom, le_of_lt h]
    · have : prev = d := le_antisymm hprev (not_lt.mp h)
      simp [buildScenes, h, chainFrom, this]
  | cons t ts ih =>
    intro prev hprev hts
    have htd : t ≤ d := hts t (List.mem_cons_self t ts)
    have hts' : ∀ u ∈ ts, u ≤ d := fun u hu => hts u (List.mem_cons_of_mem t hu)
    by_cases hacc : minLen ≤ t - prev
    · have hpt : prev ≤ t := by linarith
      have hmt : min t d = t := min_eq_left htd
      simp only [buildScenes, if_pos hacc, chainFrom, hmt]
      have : chainFrom t d (buildScenes minLen d t ts) = true := ih t htd hts'
      simp [this, hpt, le_min_iff, hprev]
    · simp only [buildScenes, if_neg hacc]
      exact ih prev hprev hts'

/-- Every scene of the boundary walk except possibly the last has duration at
least the strategy minimum (the trailing scene from the cursor to the video
end may be arbitrarily short). -/
lemma buildScenes_dropLast_dur {minLen d : ℚ} :
    ∀ (ts : List ℚ) (prev : ℚ), (∀ t ∈ ts, t ≤ d) →
      ∀ s ∈ (buildScenes minLen d prev ts).dropLast, minLen ≤ s.dur := by
  intro ts
  induction ts with
  | nil =>
    intro prev _ s hs
    by_cases h : prev < d <;> simp [buildScenes, h] at hs
  | cons t ts ih =>
    intro prev hts s hs
    have htd : t ≤ d := hts t (List.mem_cons_self t ts)
    have hts' : ∀ u ∈ ts, u ≤ d := fun u hu => hts u (List.mem_cons_of_mem t hu)
    by_cases hacc : minLen ≤ t - prev
    · simp only [buildScenes, if_pos hacc] at hs
      by_cases hrest : buildScenes minLen d t ts = []
      · simp [hrest] at hs
      · rw [List.dropLast_cons_of_ne_nil hrest] at hs
        rcases List.mem_cons.mp hs with rfl | hs'
        · show minLen ≤ min (t - prev) (d - prev)
          exact le_min hacc (by linarith)
        · exact ih t hts' s hs'
    · simp only [buildScenes, if_neg hacc] at hs
      exact ih prev hts' s hs

/-! ### Fixed-interval loop: fuel arithmetic and invariants -/

lemma ceil_pos_of_lt {interval d c : ℚ} (hI : 0 < interval) (h : c < d) :
    1 ≤ ⌈(d - c) / interval⌉ :=
  Int.one_le_ceil_iff.mpr (div_pos (by linarith) hI)

lemma ceil_nonpos_of_ge {interval d c : ℚ} (hI : 0 < interval) (h : ¬ c < d) :
    ⌈(d - c) / interval⌉ ≤ 0 := by
  have hx : (d - c) / interval ≤ 0 :=
    div_nonpos_of_nonpos_of_nonneg (by linarith [not_lt.mp h]) hI.le
  exact Int.ceil_le.mpr (by exact_mod_cast hx)

lemma ceil_step {interval d c : ℚ} (hI : 0 < interval) :
    ⌈(d - (c + interval)) / interval⌉ = ⌈(d - c) / interval⌉ - 1 := by
  have hI0 : interval ≠ 0 := ne_of_gt hI
  have hdiv : (d - (c + interval)) / interval = (d - c) / interval - 1 := by
    field_simp
    ring
  calc ⌈(d - (c + interval)) / interval⌉
      = ⌈(d - c) / interval - ((1 : ℤ) : ℚ)⌉ := by rw [hdiv]; norm_num
    _ = ⌈(d - c) / interval⌉ - 1 := Int.ceil_sub_int _ 1

lemma fuel_step {interval d c : ℚ} {f : ℕ} (hI : 0 < interval)
    (hf : Int.toNat ⌈(d - c) / interval⌉ ≤ f + 1) :
    Int.toNat ⌈(d - (c + interval)) / interval⌉ ≤ f := by
  rw [ceil_step hI]
  rw [Int.toNat_le] at hf ⊢
  push_cast at hf ⊢
  omega

lemma sampleGo_nil_of_ge {interval d c : ℚ} (h : ¬ c < d) (f : ℕ) :
    sampleGo interval d c f = [] := by
  cases f with
  | zero => rfl
  | succ f => simp [sampleGo, h]

lemma sampleGo_lt_of_ne_nil {interval d c : ℚ} {f : ℕ}
    (h : sampleGo interval d c f ≠ []) : c < d := by
  by_contra hc
  exact h (sampleGo_nil_of_ge hc f)

/-- The fuel-indexed loop produces a contiguous chain from the cursor to the
duration whenever the fuel covers the remaining iteration count. -/
lemma sampleGo_chain {interval d : ℚ} (hI : 0 < interval) :
    ∀ (f : ℕ) (c : ℚ), c ≤ d → Int.toNat ⌈(d - c) / interval⌉ ≤ f →
      chainFrom c d (sampleGo interval d c f) = true := by
  intro f
  induction f with
  | zero =>
    intro c hc hf
    by_cases h : c < d
    · exfalso
      have hpos := ceil_pos_of_lt hI h
      omega
    · have hcd : c = d := le_antisymm hc (not_lt.mp h)
      rw [sampleGo_nil_of_ge h]
      simp [chainFrom, hcd]
  | succ f ih =>
    intro c hc hf
    by_cases h : c < d
    · simp only [sampleGo, if_pos h]
      have hnext_le : min (c + interval) d ≤ d := min_le_right _ _
      have hc_next : c ≤ min (c + interval) d := le_min (by linarith) hc
      by_cases hci : c + interval < d
      · have hmin : min (c + interval) d = c + interval := min_eq_left hci.le
        have hrest : chainFrom (c + interval) d
            (sampleGo interval d (c + interval) f) = true :=
          ih (c + interval) hci.le (fuel_step hI hf)
        simp [chainFrom, hmin, hmin ▸ hc_next, hrest]
      · have hmin : min (c + interval) d = d := min_eq_right (not_lt.mp hci)
        have hrest : chainFrom d d (sampleGo interval d d f) = true := by
          rw [sampleGo_nil_of_ge (lt_irrefl d) f]
          simp [chainFrom]
        simp [chainFrom, hmin, hmin ▸ hc_next, hrest]
    · have hcd : c = d := le_antisymm hc (not_lt.mp h)
      rw [sampleGo_nil_of_ge h]
      simp [chainFrom, hcd]

/-- With sufficient fuel, the loop runs exactly ⌈(d − c) / interval⌉ times. -/
lemma sampleGo_length {interval d : ℚ} (hI : 0 < interval) :
    ∀ (f : ℕ) (c : ℚ), Int.toNat ⌈(d - c) / interval⌉ ≤ f →
      (sampleGo interval d c f).length = Int.toNat ⌈(d - c) / interval⌉ := by
  intro f
  induction f with
  | zero =>
    intro c hf
    simp only [sampleGo, List.length_nil]
    omega
  | succ f ih =>
    intro c hf
    by_cases h : c < d
    · simp only [sampleGo, if_pos h, List.length_cons]
      by_cases hci : c + interval < d
      · have hmin : min (c + interval) d = c + interval := min_eq_left hci.le
        rw [hmin, ih (c + interval) (fuel_step hI hf)]
        have := ceil_step (d := d) (c := c) hI
        have hpos := ceil_pos_of_lt hI h
        omega
      · have hmin : min (c + interval) d = d := min_eq_right (not_lt.mp hci)
        rw [hmin, sampleGo_nil_of_ge (lt_irrefl d) f]
        have h1 : ⌈(d - c) / interval⌉ ≤ 1 := by
          apply Int.ceil_le.mpr
          push_cast
          rw [div_le_one hI]
          linarith [not_lt.mp hci]
        have hpos := ceil_pos_of_lt hI h
        simp only [List.length_nil]
        omega
    · rw [sampleGo_nil_of_ge h (f + 1)]
      have := ceil_nonpos_of_ge hI h
      simp only [List.length_nil]
      omega

lemma sampleGo_ne_nil {interval d c : ℚ} (h : c < d) (f : ℕ) :
    sampleGo interval d c (f + 1) ≠ [] := by
  simp [sampleGo, h]

/-- Every scene of the fixed-interval loop except possibly the last has
duration exactly the interval. -/
lemma sampleGo_dropLast_dur {interval d : ℚ} :
    ∀ (f : ℕ) (c : ℚ), ∀ s ∈ (sampleGo interval d c f).dropLast, s.dur = interval := by
  intro f
  induction f with
  | zero => intro c s hs; simp [sampleGo] at hs
  | succ f ih =>
    intro c s hs
    by_cases h : c < d
    · simp only [sampleGo, if_pos h] at hs
      by_cases hrest : sampleGo interval d (min (c + interval) d) f = []
      · simp [hrest] at hs
      · rw [List.dropLast_cons_of_ne_nil hrest] at hs
        have hnext_lt : min (c + interval) d < d := sampleGo_lt_of_ne_nil hrest
        have hci : c + interval < d := by
          rcases lt_or_ge (c + interval) d with h1 | h1
          · exact h1
          · rw [min_eq_right h1] at hnext_lt
            exact absurd hnext_lt (lt_irrefl d)
        have hmin : min (c + interval) d = c + interval := min_eq_left hci.le
        rcases List.mem_cons.mp hs with rfl | hs'
        · show min (c + interval) d - c = interval
          rw [hmin]
          ring
        · exact ih (min (c + interval) d) s hs'
    · rw [sampleGo_nil_of_ge h] at hs
      simp at hs

/-- With sufficient fuel, the last scene of the fixed-interval loop runs to
the video end: its duration is the remaining time after the earlier
full-interval scenes. -/
lemma sampleGo_getLast_dur {interval d : ℚ} (hI : 0 < interval) :
    ∀ (f : ℕ) (c : ℚ) (h : sampleGo interval d c f ≠ []),
      Int.toNat ⌈(d - c) / interval⌉ ≤ f →
      ((sampleGo interval d c f).getLast h).dur
        = d - c - interval * (((sampleGo interval d c f).length - 1 : ℕ) : ℚ) := by
  intro f
  induction f with
  | zero => intro c h hf; exact absurd rfl h
  | succ f ih =>
    intro c h hf
    have hc : c < d := sampleGo_lt_of_ne_nil h
    by_cases hrest : sampleGo interval d (min (c + interval) d) f = []
    · have hmin : min (c + interval) d = d := by
        rcases lt_or_ge (c + interval) d with h1 | h1
        · exfalso
          have hf' : Int.toNat ⌈(d - (c + interval)) / interval⌉ ≤ f :=
            fuel_step hI hf
          have hpos : 1 ≤ ⌈(d - (c + interval)) / interval⌉ :=
            ceil_pos_of_lt hI h1
          obtain ⟨f', rfl⟩ : ∃ f', f = f' + 1 := ⟨f - 1, by omega⟩
          rw [min_eq_left h1.le] at hrest
          exact sampleGo_ne_nil h1 f' hrest
        · exact min_eq_right h1
      have hlist : sampleGo interval d c (f + 1) = [⟨c, d, d - c⟩] := by
        rw [hmin] at hrest
        simp only [sampleGo, if_pos hc, hmin, hrest]
      have hgl := List.getLast_congr h (List.cons_ne_nil _ _) hlist
      have hlen : (sampleGo interval d c (f + 1)).length = 1 := by rw [hlist]; rfl
      rw [hgl, hlen]
      simp [List.getLast]
    · have hnext_lt : min (c + interval) d < d := sampleGo_lt_of_ne_nil hrest
      have hci : c + interval < d := by
        rcases lt_or_ge (c + interval) d with h1 | h1
        · exact h1
        · rw [min_eq_right h1] at hnext_lt
          exact absurd hnext_lt (lt_irrefl d)
      have hmin : min (c + interval) d = c + interval := min_eq_left hci.le
      have hf' : Int.toNat ⌈(d - (c + interval)) / interval⌉ ≤ f := fuel_step hI hf
      rw [hmin] at hrest
      have hlist : sampleGo interval d c (f + 1)
          = ⟨c, c + interval, c + interval - c⟩ :: sampleGo interval d (c + interval) f := by
        simp only [sampleGo, if_pos hc, hmin]
      have hlen1 : 1 ≤ (sampleGo interval d (c + interval) f).length :=
        List.length_pos.mpr hrest
      have hihv := ih (c + interval) hrest hf'
      have hgl := List.getLast_congr h (List.cons_ne_nil _ _) hlist
      have hlen : (sampleGo interval d c (f + 1)).length
          = (sampleGo interval d (c + interval) f).length + 1 := by
        rw [hlist]
        rfl
      rw [hgl, List.getLast_cons hrest, hihv, hlen]
      have hcast : (((sampleGo interval d (c + interval) f).length - 1 : ℕ) : ℚ)
          = ((sampleGo interval d (c + interval) f).length : ℚ) - 1 := by
        push_cast [Nat.cast_sub hlen1]
        ring
      rw [Nat.add_sub_cancel, hcast]
      ring

/-! ### Claim theorems: segmentation -/

/-- C1 counterexample: with filter boundaries at 1.0s and 1.5s on a
10-second video, the code discards BOTH boundaries — each lies within 2.0s of
the last accepted boundary, which starts at 0 — so segmentation returns the
single scene [0, 10), not the claimed pair [0, 1.5), [1.5, 10). -/
theorem C1_filter_merge_counterexample :
    extract_scenes_ffmpeg [1, 3/2] 10 = [⟨0, 10, 10⟩] ∧
    extract_scenes_ffmpeg [1, 3/2] 10 ≠ [⟨0, 3/2, 3/2⟩, ⟨3/2, 10, 17/2⟩] := by
  have h : extract_scenes_ffmpeg [1, 3/2] 10 = [⟨0, 10, 10⟩] := by
    norm_num [extract_scenes_ffmpeg, buildScenes]
  refine ⟨h, ?_⟩
  rw [h]
  simp

/-- C1 amended: a boundary closer than the strategy minimum to the previously
accepted boundary is discarded outright and the cursor does not move (it is
not merged into a cut at the later time).  Hence boundaries 1.0 and 1.5 on a
10s video are both discarded (each within 2.0s of the initial cursor 0) and
the filter strategy returns the single scene [0, 10). -/
theorem C1_filter_merge_amended :
    extract_scenes_ffmpeg [1, 3/2] 10 = [⟨0, 10, 10⟩] ∧
    ∀ (minLen d prev t : ℚ) (ts : List ℚ), t - prev < minLen →
      buildScenes minLen d prev (t :: ts) = buildScenes minLen d prev ts := by
  constructor
  · norm_num [extract_scenes_ffmpeg, buildScenes]
  · intro minLen d prev t ts h
    simp [buildScenes, not_le.mpr h]

theorem C1_filter_merge_amended_witness :
    (3/2 : ℚ) - 0 < 2 ∧ buildScenes 2 10 0 [3/2] = buildScenes 2 10 0 [] :=
  ⟨by norm_num, C1_filter_merge_amended.2 2 10 0 (3/2) [] (by norm_num)⟩

/-- C6: for any duration, any segmentation method, with the zero-scene
fallback applied — under the environmental contract that the reported
boundary timestamps lie within the video and the sampling interval is
positive — the produced scenes form a contiguous ordered partition of
[0, duration]: the chain check passes, the half-open spans union to exactly
[0, duration), the starts are sorted, and distinct scenes do not overlap. -/
theorem C6_segmentation_coverage (m : Method) (ts : List ℚ) (interval d : ℚ)
    (hd : 0 ≤ d) (hI : 0 < interval) (hts : ∀ t ∈ ts, t ≤ d) :
    chainFrom 0 d (withFallback d (segmentScenes m ts interval d)) = true ∧
    withFallback d (segmentScenes m ts interval d) ≠ [] ∧
    sceneSpans (withFallback d (segmentScenes m ts interval d)) = Set.Ico 0 d ∧
    ((withFallback d (segmentScenes m ts interval d)).map Scene.start).Sorted (· ≤ ·) ∧
    (withFallback d (segmentScenes m ts interval d)).Pairwise
      (fun s t => s.end_ ≤ t.start) := by
  have hchain : chainFrom 0 d (withFallback d (segmentScenes m ts interval d)) = true := by
    by_cases hnil : segmentScenes m ts interval d = []
    · simp [withFallback, hnil, chainFrom, hd]
    · have heq : withFallback d (segmentScenes m ts interval d)
          = segmentScenes m ts interval d := by
        simp [withFallback, hnil]
      rw [heq]
      cases m with
      | transnetv2 => exact buildScenes_chain one_pos ts 0 hd hts
      | ffmpeg => exact buildScenes_chain two_pos ts 0 hd hts
      | sampling =>
        have h := sampleGo_chain hI (Int.toNat ⌈d / interval⌉) 0 hd (by simp)
        simpa [segmentScenes, extract_scenes_sampling] using h
  have hne : withFallback d (segmentScenes m ts interval d) ≠ [] := by
    by_cases hnil : segmentScenes m ts interval d = [] <;>
      simp [withFallback, hnil]
  exact ⟨hchain, hne, chainFrom_spans hchain, chainFrom_sorted hchain,
    chainFrom_pairwise hchain⟩

theorem C6_segmentation_coverage_witness :
    chainFrom 0 10 (withFallback 10 (segmentScenes .ffmpeg [3, 7] 30 10)) = true ∧
    sceneSpans (withFallback 10 (segmentScenes .ffmpeg [3, 7] 30 10)) = Set.Ico 0 10 :=
  ⟨(C6_segmentation_coverage .ffmpeg [3, 7] 30 10 (by norm_num) (by norm_num)
      (by norm_num)).1,
   (C6_segmentation_coverage .ffmpeg [3, 7] 30 10 (by norm_num) (by norm_num)
      (by norm_num)).2.2.1⟩

/-- C7: the fixed-interval strategy with interval I and duration D produces
exactly ⌈D / I⌉ scenes; every scene except possibly the last has duration
exactly I; the last scene's duration is D − I·(count − 1), which equals I
when I evenly divides D and equals D mod I (that is, D − I·⌊D / I⌋)
otherwise; concretely, a 90-second video at interval 30 gives the three
scenes [0,30), [30,60), [60,90), each of duration 30. -/
theorem C7_fixed_interval_shape (interval d : ℚ) (hI : 0 < interval) (hd : 0 ≤ d) :
    (extract_scenes_sampling interval d).length = Int.toNat ⌈d / interval⌉ ∧
    (∀ s ∈ (extract_scenes_sampling interval d).dropLast, s.dur = interval) ∧
    (∀ h : extract_scenes_sampling interval d ≠ [],
      ((extract_scenes_sampling interval d).getLast h).dur
        = d - interval * (((extract_scenes_sampling interval d).length - 1 : ℕ) : ℚ) ∧
      ((∃ k : ℤ, d = interval * k) →
        ((extract_scenes_sampling interval d).getLast h).dur = interval) ∧
      (¬ (∃ k : ℤ, d = interval * k) →
        ((extract_scenes_sampling interval d).getLast h).dur
          = d - interval * (⌊d / interval⌋ : ℚ))) ∧
    extract_scenes_sampling 30 90 = [⟨0, 30, 30⟩, ⟨30, 60, 30⟩, ⟨60, 90, 30⟩] := by
  have hfuel : Int.toNat ⌈(d - 0) / interval⌉ ≤ Int.toNat ⌈d / interval⌉ := by simp
  have hlen : (extract_scenes_sampling interval d).length = Int.toNat ⌈d / interval⌉ := by
    have h := sampleGo_length hI (Int.toNat ⌈d / interval⌉) 0 hfuel
    simpa [extract_scenes_sampling] using h
  refine ⟨hlen, sampleGo_dropLast_dur _ 0, ?_, ?_⟩
  · intro h
    have hlast : ((extract_scenes_sampling interval d).getLast h).dur
        = d - 0 - interval * (((extract_scenes_sampling interval d).length - 1 : ℕ) : ℚ) :=
      sampleGo_getLast_dur hI (Int.toNat ⌈d / interval⌉) 0 h hfuel
    rw [sub_zero] at hlast
    have hpos : 0 < d := by
      have := sampleGo_lt_of_ne_nil h
      linarith
    have hceil1 : 1 ≤ ⌈d / interval⌉ :=
      Int.one_le_ceil_iff.mpr (div_pos hpos hI)
    refine ⟨hlast, ?_, ?_⟩
    · rintro ⟨k, rfl⟩
      have hk : (interval * (k : ℚ)) / interval = (k : ℚ) := by
        field_simp
      have hceil : ⌈(interval * (k : ℚ)) / interval⌉ = k := by
        rw [hk, Int.ceil_intCast]
      rw [hlast, hlen, hceil]
      have hk1 : 1 ≤ k := by
        rw [hceil] at hceil1
        exact hceil1
      have hcast : ((Int.toNat k - 1 : ℕ) : ℚ) = (k : ℚ) - 1 := by
        have h1 : ((Int.toNat k : ℕ) : ℚ) = (k : ℚ) := by
          exact_mod_cast congrArg (fun z : ℤ => (z : ℚ)) (Int.toNat_of_nonneg (by omega))
        rw [Nat.cast_sub (by omega), h1]
        norm_num
      rw [hcast]
      ring
    · intro hnd
      have hne : (⌊d / interval⌋ : ℚ) ≠ d / interval := by
        intro heq
        exact hnd ⟨⌊d / interval⌋, by field_simp at heq ⊢; linarith [heq]⟩
      have hflt : (⌊d / interval⌋ : ℚ) < d / interval :=
        lt_of_le_of_ne (Int.floor_le _) hne
      have hceil_eq : ⌈d / interval⌉ = ⌊d / interval⌋ + 1 := by
        have hle : ⌈d / interval⌉ ≤ ⌊d / interval⌋ + 1 := Int.ceil_le_floor_add_one _
        have hgt : ⌊d / interval⌋ < ⌈d / interval⌉ := Int.lt_ceil.mpr hflt
        omega
      have hfl0 : 0 ≤ ⌊d / interval⌋ := by omega
      rw [hlast, hlen, hceil_eq]
      have hcast : ((Int.toNat (⌊d / interval⌋ + 1) - 1 : ℕ) : ℚ)
          = (⌊d / interval⌋ : ℚ) := by
        have h1 : Int.toNat (⌊d / interval⌋ + 1) - 1 = Int.toNat ⌊d / interval⌋ := by
          omega
        rw [h1]
        exact_mod_cast congrArg (fun z : ℤ => (z : ℚ))
          (Int.toNat_of_nonneg hfl0)
      rw [hcast]
  · have h90 : Int.toNat ⌈(90 : ℚ) / 30⌉ = 3 := by norm_num; rfl
    norm_num [extract_scenes_sampling, h90, sampleGo]

theorem C7_fixed_interval_shape_witness :
    (0 : ℚ) < 30 ∧ (0 : ℚ) ≤ 90 ∧
    extract_scenes_sampling 30 90 = [⟨0, 30, 30⟩, ⟨30, 60, 30⟩, ⟨60, 90, 30⟩] :=
  ⟨by norm_num, by norm_num,
    (C7_fixed_interval_shape 30 90 (by norm_num) (by norm_num)).2.2.2⟩

/-- C8 counterexample: the filter strategy's final scene may be shorter than
2.0s — a single boundary at 2.0s on a 2.5-second video gives a final scene
[2, 2.5) of duration 0.5 < 2, refuting the claim that EVERY filter scene has
duration at least 2.0. -/
theorem C8_min_duration_counterexample :
    extract_scenes_ffmpeg [2] (5/2) = [⟨0, 2, 2⟩, ⟨2, 5/2, 1/2⟩] ∧
    (⟨2, 5/2, 1/2⟩ : Scene) ∈ extract_scenes_ffmpeg [2] (5/2) ∧
    (⟨2, 5/2, 1/2⟩ : Scene).dur < 2 := by
  have h : extract_scenes_ffmpeg [2] (5/2) = [⟨0, 2, 2⟩, ⟨2, 5/2, 1/2⟩] := by
    norm_num [extract_scenes_ffmpeg, buildScenes]
  exact ⟨h, by rw [h]; simp, by norm_num⟩

/-- C8 amended: every scene EXCEPT POSSIBLY THE LAST produced by the AI
strategy has duration at least 1.0s, and by the filter strategy at least
2.0s, provided the reported boundaries lie within the video; the final scene
(from the last accepted boundary to the video end) may be shorter.  The
fixed-interval strategy gives every non-final scene duration exactly the
interval. -/
theorem C8_min_duration_amended (ts : List ℚ) (interval d : ℚ)
    (hts : ∀ t ∈ ts, t ≤ d) :
    (∀ s ∈ (extract_scenes_transnetv2 ts d).dropLast, 1 ≤ s.dur) ∧
    (∀ s ∈ (extract_scenes_ffmpeg ts d).dropLast, 2 ≤ s.dur) ∧
    (∀ s ∈ (extract_scenes_sampling interval d).dropLast, s.dur = interval) :=
  ⟨buildScenes_dropLast_dur ts 0 hts, buildScenes_dropLast_dur ts 0 hts,
    sampleGo_dropLast_dur _ 0⟩

theorem C8_min_duration_amended_witness :
    2 ≤ (Scene.mk 0 3 3).dur :=
  (C8_min_duration_amended [3, 7] 30 10 (by norm_num)).2.1 ⟨0, 3, 3⟩
    (by norm_num [extract_scenes_ffmpeg, buildScenes])

/-! ### Scoring and aggregation lemmas -/

lemma processFrame_none_scores {e : FrameEnv} (h : e.nsfw = none) :
    (processFrame e).nud = none ∧ (processFrame e).imm = none ∧
      (processFrame e).vio = none := by
  cases hex : e.extract_ok <;> simp [processFrame, h, hex]

lemma collectScores_nil_of_nsfw_none :
    ∀ (envs : List FrameEnv), (∀ e ∈ envs, e.nsfw = none) →
      collectScores envs = ([], [], []) := by
  intro envs
  induction envs with
  | nil => intro _; rfl
  | cons e rest ih =>
    intro h
    obtain ⟨h1, h2, h3⟩ := processFrame_none_scores (h e (List.mem_cons_self e rest))
    have hrest := ih (fun x hx => h x (List.mem_cons_of_mem _ hx))
    simp [collectScores, hrest, h1, h2, h3]

lemma aggregate_nil : aggregate [] [] [] = ⟨0, 0, 0, 0⟩ := by
  simp [aggregate, avgScore]

lemma processFrame_nud_inv {e : FrameEnv} {x : ℚ}
    (h : (processFrame e).nud = some x) :
    ∃ r, e.nsfw = some r ∧ x = r.nudity.getD 0 := by
  cases hex : e.extract_ok
  · simp [processFrame, hex] at h
  · cases hns : e.nsfw with
    | none => simp [processFrame, hex, hns] at h
    | some r =>
      refine ⟨r, rfl, ?_⟩
      cases hvi : e.violence with
      | none =>
        simp only [processFrame, hex, hns, hvi, if_true] at h
        split_ifs at h with hst
        exact (Option.some_inj.mp h).symm
      | some v =>
        simp only [processFrame, hex, hns, hvi, if_true] at h
        split_ifs at h with hst
        exact (Option.some_inj.mp h).symm

lemma processFrame_imm_inv {e : FrameEnv} {x : ℚ}
    (h : (processFrame e).imm = some x) :
    ∃ r, e.nsfw = some r ∧ x = r.immodesty.getD 0 := by
  cases hex : e.extract_ok
  · simp [processFrame, hex] at h
  · cases hns : e.nsfw with
    | none => simp [processFrame, hex, hns] at h
    | some r =>
      refine ⟨r, rfl, ?_⟩
      cases hvi : e.violence with
      | none =>
        simp only [processFrame, hex, hns, hvi, if_true] at h
        split_ifs at h with hst
        exact (Option.some_inj.mp h).symm
      | some v =>
        simp only [processFrame, hex, hns, hvi, if_true] at h
        split_ifs at h with hst
        exact (Option.some_inj.mp h).symm

lemma processFrame_vio_inv {e : FrameEnv} {x : ℚ}
    (h : (processFrame e).vio = some x) :
    ∃ v, e.violence = some v ∧ x = vioScoreOf v := by
  cases hex : e.extract_ok
  · simp [processFrame, hex] at h
  · cases hns : e.nsfw with
    | none => simp [processFrame, hex, hns] at h
    | some r =>
      cases hvi : e.violence with
      | none => simp [processFrame, hex, hns, hvi] at h
      | some v =>
        refine ⟨v, rfl, ?_⟩
        simp only [processFrame, hex, hns, hvi, if_true] at h
        split_ifs at h with hst
        exact (Option.some_inj.mp h).symm

lemma collectScores_mem_bounded :
    ∀ (envs : List FrameEnv), (∀ e ∈ envs, e.bounded) →
      (∀ x ∈ (collectScores envs).1, 0 ≤ x ∧ x ≤ 1) ∧
      (∀ x ∈ (collectScores envs).2.1, 0 ≤ x ∧ x ≤ 1) ∧
      (∀ x ∈ (collectScores envs).2.2, 0 ≤ x ∧ x ≤ 1) := by
  intro envs
  induction envs with
  | nil => intro _; exact ⟨by simp [collectScores], by simp [collectScores],
      by simp [collectScores]⟩
  | cons e rest ih =>
    intro h
    have hb := h e (List.mem_cons_self e rest)
    obtain ⟨ihn, ihi, ihv⟩ := ih (fun x hx => h x (List.mem_cons_of_mem _ hx))
    rcases hcs : collectScores rest with ⟨ns, ims, vs⟩
    rw [hcs] at ihn ihi ihv
    refine ⟨?_, ?_, ?_⟩ <;> intro x hx <;>
      simp only [collectScores, hcs, List.mem_append] at hx
    · rcases hx with hx | hx
      · obtain ⟨r, hr, rfl⟩ :=
          processFrame_nud_inv (Option.mem_toList.mp hx)
        exact ⟨(hb.1 r hr).1, (hb.1 r hr).2.1⟩
      · exact ihn x hx
    · rcases hx with hx | hx
      · obtain ⟨r, hr, rfl⟩ :=
          processFrame_imm_inv (Option.mem_toList.mp hx)
        exact ⟨(hb.1 r hr).2.2.1, (hb.1 r hr).2.2.2⟩
      · exact ihi x hx
    · rcases hx with hx | hx
      · obtain ⟨v, hv, rfl⟩ :=
          processFrame_vio_inv (Option.mem_toList.mp hx)
        exact hb.2 v hv
      · exact ihv x hx

lemma avgScore_nonneg {l : List ℚ} (h : ∀ x ∈ l, 0 ≤ x) : 0 ≤ avgScore l := by
  unfold avgScore
  split_ifs with he
  · exact le_refl 0
  · exact div_nonneg (List.sum_nonneg h) (Nat.cast_nonneg _)

lemma avgScore_le_one {l : List ℚ} (h : ∀ x ∈ l, x ≤ 1) : avgScore l ≤ 1 := by
  unfold avgScore
  split_ifs with he
  · norm_num
  · have hne : l ≠ [] := by simpa [List.isEmpty_iff] using he
    have hlen : (0 : ℚ) < (l.length : ℚ) := by
      exact_mod_cast List.length_pos.mpr hne
    rw [div_le_one hlen]
    calc l.sum ≤ l.length • (1 : ℚ) := List.sum_le_card_nsmul l 1 h
      _ = (l.length : ℚ) := by simp

lemma sum_zero_iff_of_nonneg :
    ∀ {l : List ℚ}, (∀ x ∈ l, 0 ≤ x) → (l.sum = 0 ↔ ∀ x ∈ l, x = 0) := by
  intro l
  induction l with
  | nil => intro _; simp
  | cons a l ih =>
    intro h
    have ha := h a (List.mem_cons_self a l)
    have hl : ∀ x ∈ l, 0 ≤ x := fun x hx => h x (List.mem_cons_of_mem _ hx)
    have hsum : 0 ≤ l.sum := List.sum_nonneg hl
    simp only [List.sum_cons, List.mem_cons]
    constructor
    · intro h0
      have ha0 : a = 0 := by linarith
      have hl0 : l.sum = 0 := by linarith
      intro x hx
      rcases hx with rfl | hx
      · exact ha0
      · exact ((ih hl).mp hl0) x hx
    · intro hall
      have ha0 : a = 0 := hall a (Or.inl rfl)
      have hl0 : l.sum = 0 := (ih hl).mpr (fun x hx => hall x (Or.inr hx))
      rw [ha0, hl0, add_zero]

lemma avgScore_zero_iff {l : List ℚ} (h : ∀ x ∈ l, 0 ≤ x) :
    (avgScore l = 0 ↔ ∀ x ∈ l, x = 0) := by
  unfold avgScore
  split_ifs with he
  · have : l = [] := by simpa [List.isEmpty_iff] using he
    subst this
    simp
  · have hne : l ≠ [] := by simpa [List.isEmpty_iff] using he
    have hlen : ((l.length : ℚ)) ≠ 0 := by
      exact_mod_cast (List.length_pos.mpr hne).ne'
    rw [div_eq_zero_iff]
    constructor
    · intro h0
      rcases h0 with h0 | h0
      · exact (sum_zero_iff_of_nonneg h).mp h0
      · exact absurd h0 hlen
    · intro hall
      exact Or.inl ((sum_zero_iff_of_nonneg h).mpr hall)

lemma aggregate_confidence_eq_max (ns ims vs : List ℚ) :
    (aggregate ns ims vs).confidence
      = max (max (avgScore ns) (avgScore vs)) (avgScore ims) := by
  unfold aggregate
  split_ifs with h
  · rfl
  · rw [not_or, not_or] at h
    obtain ⟨h1, h2, h3⟩ := h
    rw [not_not] at h1 h2 h3
    simp only [avgScore, h1, h2, h3, if_true]
    norm_num

/-! ### Claim theorems: scoring and orchestration -/

/-- C2 counterexample: scene [0,10), sample_count 3, nudity/immodesty call
raising on every frame (503 on all 5 retry attempts makes the configured
urllib3 Retry raise), violence collaborator ready to answer 200 with
general_violence = 0.05: the scene result is all-zero with confidence 0 —
NOT nudity 0, immodesty 0, violence 0.05, confidence 0.05 — because the
per-frame guard catches the nudity call's exception and skips the violence
call entirely. -/
theorem C2_failed_axis_counterexample :
    processScene ⟨0, 10, 10⟩ 3
        (fun _ => ⟨true, none, some ⟨200, some (.dict (some (1/20)))⟩⟩)
      = .ok ⟨0, 10, 10, ⟨0, 0, 0, 0⟩⟩ ∧
    Analysis.mk 0 0 0 0 ≠ Analysis.mk 0 0 (1/20) (1/20) := by
  constructor
  · norm_num [processScene, sampleTimestamps, collectScores, processFrame,
      aggregate, avgScore, List.range_succ]
  · intro hc
    rw [Analysis.mk.injEq] at hc
    norm_num at hc

/-- C2 amended: when the nudity/immodesty call raises on every frame of a
scene (e.g. retries exhausted on 503), the per-frame guard catches the
exception and skips the rest of that frame's body — including the violence
call, so the two collaborator calls are sequential, not independent.  No
frame contributes any score and the scene result carries the scene's span
with all-zero scores and confidence 0. -/
theorem C2_failed_axis_amended (s : Scene) (count : ℕ) (env : ℕ → FrameEnv)
    (ts : List ℚ) (hts : sampleTimestamps s count = .ok ts)
    (hn : ∀ i, (env i).nsfw = none) :
    processScene s count env = .ok ⟨s.start, s.end_, s.dur, ⟨0, 0, 0, 0⟩⟩ := by
  have hall : ∀ e ∈ (List.range ts.length).map env, e.nsfw = none := by
    intro e he
    obtain ⟨i, _, rfl⟩ := List.mem_map.mp he
    exact hn i
  have hcs := collectScores_nil_of_nsfw_none _ hall
  simp [processScene, hts, hcs, aggregate_nil]

theorem C2_failed_axis_amended_witness :
    processScene ⟨0, 10, 10⟩ 3 (fun _ => ⟨true, none, none⟩)
      = .ok ⟨0, 10, 10, ⟨0, 0, 0, 0⟩⟩ :=
  C2_failed_axis_amended ⟨0, 10, 10⟩ 3 (fun _ => ⟨true, none, none⟩)
    [0, 5, 10]
    (by norm_num [sampleTimestamps, List.range_succ])
    (fun _ => rfl)

/-- C3 counterexample: when frame extraction succeeds but the
nudity/immodesty call raises, the per-frame handler continues with the next
frame without reaching `os.remove`: the temp frame file is created but never
deleted, so deletion does NOT happen on every exit path. -/
theorem C3_frame_cleanup_counterexample :
    (processFrame ⟨true, none, some ⟨200, some (.num 0)⟩⟩).created = true ∧
    (processFrame ⟨true, none, some ⟨200, some (.num 0)⟩⟩).removed = false := by
  exact ⟨rfl, rfl⟩

/-- C3 amended: the temp frame file is removed exactly on the
fully-exception-free path — extraction returned and both collaborator calls
returned (any HTTP status: a non-200 response is not an exception and still
reaches `os.remove`).  When extraction succeeded but either collaborator call
raised, the file is created and never removed. -/
theorem C3_frame_cleanup_amended (e : FrameEnv) :
    ((processFrame e).removed = true ↔
      e.extract_ok = true ∧ e.nsfw.isSome = true ∧ e.violence.isSome = true) ∧
    ((processFrame e).created = true ↔ e.extract_ok = true) := by
  obtain ⟨ex, ns, vi⟩ := e
  cases ex <;> cases ns <;> cases vi <;> simp [processFrame]

/-- C4 counterexample: sampling is not total for sample_count = 1 — a scene
of duration 5 takes the evenly-spaced branch (5 < 1 is false) and evaluates
scene_duration * 0 / (1 - 1), raising ZeroDivisionError; so the claim that
sampling never raises for every count ≥ 1 is false. -/
theorem C4_sampling_counterexample :
    sampleTimestamps ⟨0, 5, 5⟩ 1 = .error "ZeroDivisionError" := by
  norm_num [sampleTimestamps]

/-- C4 amended: for every sample count ≥ 2 (and a well-formed scene) sampling
is total, returns at least one timestamp, and all timestamps lie within
[start, end]; when duration ≥ count it returns exactly count evenly spaced
timestamps t_j = start + duration·j/(count−1), the first equal to start and
the last equal to end, and a single midpoint timestamp otherwise.  For
count = 1 it returns the midpoint when duration < 1 but raises
ZeroDivisionError when duration ≥ 1 — the computation is not total there. -/
theorem C4_sampling_amended (s : Scene) (count : ℕ) (hse : s.start ≤ s.end_) :
    (2 ≤ count →
      ∃ ts, sampleTimestamps s count = .ok ts ∧ ts ≠ [] ∧
        (∀ t ∈ ts, s.start ≤ t ∧ t ≤ s.end_) ∧
        ((count : ℚ) ≤ s.end_ - s.start →
          ts.length = count ∧
          ts = (List.range count).map
            (fun (j : ℕ) => s.start + (s.end_ - s.start) * (j : ℚ) / ((count : ℚ) - 1)) ∧
          ts.get? 0 = some s.start ∧
          ts.get? (count - 1) = some s.end_) ∧
        (s.end_ - s.start < (count : ℚ) → ts = [(s.start + s.end_) / 2])) ∧
    (count = 1 → s.end_ - s.start < 1 →
      sampleTimestamps s count = .ok [(s.start + s.end_) / 2]) ∧
    (count = 1 → 1 ≤ s.end_ - s.start →
      sampleTimestamps s count = .error "ZeroDivisionError") := by
  refine ⟨?_, ?_, ?_⟩
  · intro hc
    by_cases hd : s.end_ - s.start < (count : ℚ)
    · refine ⟨[(s.start + s.end_) / 2], by simp [sampleTimestamps, hd], by simp,
        ?_, ?_, fun _ => rfl⟩
      · intro t ht
        simp only [List.mem_singleton] at ht
        subst ht
        constructor <;> linarith
      · intro hge
        linarith
    · push_neg at hd
      have hc2 : (2 : ℚ) ≤ (count : ℚ) := by exact_mod_cast hc
      have hd0 : 0 ≤ s.end_ - s.start := by linarith
      have hden : (0 : ℚ) < (count : ℚ) - 1 := by linarith
      have hc1 : count ≠ 1 := by omega
      have hok : sampleTimestamps s count
          = .ok ((List.range count).map
              (fun (j : ℕ) =>
                s.start + (s.end_ - s.start) * (j : ℚ) / ((count : ℚ) - 1))) := by
        simp [sampleTimestamps, not_lt.mpr hd, hc1]
      refine ⟨_, hok, ?_, ?_, ?_⟩
      · simp only [ne_eq, List.map_eq_nil, List.range_eq_nil]
        omega
      · intro t ht
        obtain ⟨j, hj, rfl⟩ := List.mem_map.mp ht
        have hjlt : j < count := List.mem_range.mp hj
        have hjle : (j : ℚ) ≤ (count : ℚ) - 1 := by
          have : (j : ℚ) + 1 ≤ (count : ℚ) := by exact_mod_cast hjlt
          linarith
        have hnum0 : 0 ≤ (s.end_ - s.start) * (j : ℚ) :=
          mul_nonneg hd0 (Nat.cast_nonneg j)
        constructor
        · have : 0 ≤ (s.end_ - s.start) * (j : ℚ) / ((count : ℚ) - 1) :=
            div_nonneg hnum0 hden.le
          linarith
        · have hstep : (s.end_ - s.start) * (j : ℚ) / ((count : ℚ) - 1)
              ≤ s.end_ - s.start := by
            rw [div_le_iff hden]
            exact mul_le_mul_of_nonneg_left hjle hd0
          linarith
      · refine ⟨fun _ => ⟨by simp, rfl, ?_, ?_⟩, fun hlt => absurd hlt (not_lt.mpr hd)⟩
        · have h0 : 0 < count := by omega
          simp [List.get?_map, List.get?_range, h0]
        · have hlt : count - 1 < count := by omega
          have hcast : ((count - 1 : ℕ) : ℚ) = (count : ℚ) - 1 := by
            have h1 : 1 ≤ count := by omega
            push_cast [Nat.cast_sub h1]
            ring
          simp only [List.get?_map, List.get?_range hlt, Option.map_some']
          rw [hcast, mul_div_assoc, div_self hden.ne', mul_one]
          congr 1
          ring
  · intro h1 hlt
    subst h1
    simp [sampleTimestamps, hlt]
  · intro h1 hge
    subst h1
    simp [sampleTimestamps, not_lt.mpr hge]

theorem C4_sampling_amended_witness :
    sampleTimestamps ⟨0, 10, 10⟩ 3 = .ok [0, 5, 10] := by
  obtain ⟨ts, hok, hne, hb, heven, hmid⟩ :=
    (C4_sampling_amended ⟨0, 10, 10⟩ 3 (by norm_num)).1 (by norm_num)
  obtain ⟨hlen, hmap, h0, hl⟩ := heven (by norm_num)
  rw [hok, hmap]
  norm_num [List.range_succ]

/-- C5 counterexample: the ZeroDivisionError raised by the sampling
arithmetic (sample_count = 1 on a scene of duration ≥ 1) is an unexpected
internal error inside an individual scene's processing, yet it is not in the
per-scene except tuple: the scene is not degraded to the zero result and the
whole request fails. -/
theorem C5_scene_isolation_counterexample :
    runScenes 1 (fun _ _ => ⟨true, none, none⟩) 0 [⟨0, 5, 5⟩]
      = .error "ZeroDivisionError" := by
  norm_num [runScenes, processScene, sampleTimestamps]

/-- C5 amended: failures of the handled exception classes are confined to the
frame or scene where they occur, and whenever per-scene sampling succeeds for
every scene (so no ZeroDivisionError escapes) the scene loop returns exactly
one result per input scene, in segmentation order, carrying that scene's
span.  (An exception outside the handled classes — ZeroDivisionError from
sampling when sample_count = 1 and a scene's duration ≥ 1 — escapes both
guards and fails the whole request.) -/
theorem C5_scene_isolation_amended (count : ℕ) (env : ℕ → ℕ → FrameEnv) :
    ∀ (scenes : List Scene) (i : ℕ),
      (∀ s ∈ scenes, ∃ ts, sampleTimestamps s count = .ok ts) →
      ∃ rs, runScenes count env i scenes = .ok rs ∧
        rs.map (fun r => (r.start, r.end_, r.dur))
          = scenes.map (fun s => (s.start, s.end_, s.dur)) := by
  intro scenes
  induction scenes with
  | nil =>
    intro i _
    refine ⟨[], rfl, ?_⟩
    simp
  | cons s rest ih =>
    intro i hok
    obtain ⟨ts, hts⟩ := hok s (List.mem_cons_self s rest)
    obtain ⟨rs, hrs, hmap⟩ := ih (i + 1) (fun x hx => hok x (List.mem_cons_of_mem _ hx))
    rcases hcs : collectScores ((List.range ts.length).map (env i)) with ⟨ns, ims, vs⟩
    have hps : processScene s count (env i)
        = .ok ⟨s.start, s.end_, s.dur, aggregate ns ims vs⟩ := by
      simp [processScene, hts, hcs]
    refine ⟨⟨s.start, s.end_, s.dur, aggregate ns ims vs⟩ :: rs, ?_, ?_⟩
    · simp [runScenes, hps, hrs]
    · simp [hmap]

theorem C5_scene_isolation_amended_witness :
    (runScenes 3 (fun _ _ => ⟨false, none, none⟩) 0 [⟨0, 10, 10⟩]).map
        (List.map (fun r => (r.start, r.end_, r.dur)))
      = .ok [((0 : ℚ), (10 : ℚ), (10 : ℚ))] := by
  obtain ⟨rs, hrs, hmap⟩ :=
    C5_scene_isolation_amended 3 (fun _ _ => ⟨false, none, none⟩) [⟨0, 10, 10⟩] 0
      (by
        intro s hs
        simp only [List.mem_singleton] at hs
        subst hs
        exact ⟨[0, 5, 10], by norm_num [sampleTimestamps, List.range_succ]⟩)
  rw [hrs]
  simp only [Except.map, hmap]
  norm_num

/-- C9 counterexample: a scene whose single collaborator responses all
succeed with score 0 gets confidence 0 even though frame scoring succeeded —
confidence 0 does not discriminate "no successful measurement" from "scored
as all-zero", refuting the claim that confidence is 0 only when no frame
scoring succeeded. -/
theorem C9_confidence_zero_counterexample :
    processScene ⟨0, 10, 10⟩ 3
        (fun _ => ⟨true, some ⟨200, some 0, some 0⟩, some ⟨200, some (.num 0)⟩⟩)
      = .ok ⟨0, 10, 10, ⟨0, 0, 0, 0⟩⟩ ∧
    (processFrame ⟨true, some ⟨200, some 0, some 0⟩, some ⟨200, some (.num 0)⟩⟩).nud
      = some 0 := by
  constructor
  · norm_num [processScene, sampleTimestamps, collectScores, processFrame,
      aggregate, avgScore, vioScoreOf, List.range_succ]
  · rfl

/-- C9 amended: under the precondition that every score a collaborator
returns lies in [0, 1], every field of a produced scene analysis lies in
[0, 1]; confidence equals the maximum of the three per-axis means (an axis
with no successful samples contributing mean 0) and is never negative; and
confidence is 0 exactly when all three averaged axes are 0 — which happens
when no frame scoring succeeded, but also when every successful score was
0, so confidence 0 does not imply total scoring failure. -/
theorem C9_score_bounds_amended (s : Scene) (count : ℕ) (env : ℕ → FrameEnv)
    (hb : ∀ i, (env i).bounded) (r : SceneResult)
    (hr : processScene s count env = .ok r) :
    (0 ≤ r.analysis.nudity ∧ r.analysis.nudity ≤ 1) ∧
    (0 ≤ r.analysis.immodesty ∧ r.analysis.immodesty ≤ 1) ∧
    (0 ≤ r.analysis.violence ∧ r.analysis.violence ≤ 1) ∧
    (0 ≤ r.analysis.confidence ∧ r.analysis.confidence ≤ 1) ∧
    r.analysis.confidence
      = max (max r.analysis.nudity r.analysis.violence) r.analysis.immodesty ∧
    (r.analysis.confidence = 0 ↔
      r.analysis.nudity = 0 ∧ r.analysis.violence = 0 ∧ r.analysis.immodesty = 0) := by
  rcases hsa : sampleTimestamps s count with e | ts
  · have : processScene s count env = .uncaught e := by
      simp [processScene, hsa]
    rw [this] at hr
    cases hr
  · rcases hcs : collectScores ((List.range ts.length).map env) with ⟨ns, ims, vs⟩
    have hps : processScene s count env
        = .ok ⟨s.start, s.end_, s.dur, aggregate ns ims vs⟩ := by
      simp [processScene, hsa, hcs]
    rw [hps] at hr
    have hreq : r = ⟨s.start, s.end_, s.dur, aggregate ns ims vs⟩ := by
      cases hr
      rfl
    subst hreq
    have hball : ∀ e ∈ (List.range ts.length).map env, e.bounded := by
      intro e he
      obtain ⟨i, _, rfl⟩ := List.mem_map.mp he
      exact hb i
    obtain ⟨hbn, hbi, hbv⟩ := collectScores_mem_bounded _ hball
    rw [hcs] at hbn hbi hbv
    have hnn : ∀ x ∈ ns, 0 ≤ x := fun x hx => (hbn x hx).1
    have hn1 : ∀ x ∈ ns, x ≤ 1 := fun x hx => (hbn x hx).2
    have hin : ∀ x ∈ ims, 0 ≤ x := fun x hx => (hbi x hx).1
    have hi1 : ∀ x ∈ ims, x ≤ 1 := fun x hx => (hbi x hx).2
    have hvn : ∀ x ∈ vs, 0 ≤ x := fun x hx => (hbv x hx).1
    have hv1 : ∀ x ∈ vs, x ≤ 1 := fun x hx => (hbv x hx).2
    have han : (aggregate ns ims vs).nudity = avgScore ns := rfl
    have hai : (aggregate ns ims vs).immodesty = avgScore ims := rfl
    have hav : (aggregate ns ims vs).violence = avgScore vs := rfl
    have hconf := aggregate_confidence_eq_max ns ims vs
    have h0n := avgScore_nonneg hnn
    have h0i := avgScore_nonneg hin
    have h0v := avgScore_nonneg hvn
    have h1n := avgScore_le_one hn1
    have h1i := avgScore_le_one hi1
    have h1v := avgScore_le_one hv1
    simp only [han, hai, hav, hconf]
    refine ⟨⟨h0n, h1n⟩, ⟨h0i, h1i⟩, ⟨h0v, h1v⟩, ?_, trivial, ?_⟩
    · constructor
      · exact le_trans h0n (le_trans (le_max_left _ _) (le_max_left _ _))
      · exact max_le (max_le h1n h1v) h1i
    · constructor
      · intro h0
        have hle1 : avgScore ns ≤ 0 := by
          calc avgScore ns ≤ max (avgScore ns) (avgScore vs) := le_max_left _ _
            _ ≤ max (max (avgScore ns) (avgScore vs)) (avgScore ims) := le_max_left _ _
            _ = 0 := h0
        have hle2 : avgScore vs ≤ 0 := by
          calc avgScore vs ≤ max (avgScore ns) (avgScore vs) := le_max_right _ _
            _ ≤ max (max (avgScore ns) (avgScore vs)) (avgScore ims) := le_max_left _ _
            _ = 0 := h0
        have hle3 : avgScore ims ≤ 0 := by
          calc avgScore ims
              ≤ max (max (avgScore ns) (avgScore vs)) (avgScore ims) := le_max_right _ _
            _ = 0 := h0
        exact ⟨le_antisymm hle1 h0n, le_antisymm hle2 h0v, le_antisymm hle3 h0i⟩
      · rintro ⟨hz1, hz2, hz3⟩
        rw [hz1, hz2, hz3]
        simp

theorem C9_score_bounds_amended_witness :
    0 ≤ (Analysis.mk 0 0 0 0).confidence ∧ (Analysis.mk 0 0 0 0).confidence ≤ 1 :=
  (C9_score_bounds_amended ⟨0, 10, 10⟩ 3 (fun _ => ⟨false, none, none⟩)
    (fun _ => ⟨fun r hr => (nomatch hr), fun v hv => (nomatch hv)⟩)
    ⟨0, 10, 10, ⟨0, 0, 0, 0⟩⟩
    (by norm_num [processScene, sampleTimestamps, collectScores, processFrame,
      aggregate, avgScore, List.range_succ])).2.2.2.1

/-- C10: the handler's response does not depend on the request's `threshold`
field — it is read into a local (default 0.15) at app.py line 396 and never
used by segmentation, sampling, scoring or aggregation, so any two requests
differing only in `threshold` produce identical responses. -/
theorem C10_threshold_independence (req : AnalyzeRequest) (env : Env)
    (t1 t2 : Option ℚ) :
    analyze_video { req with threshold := t1 } env
      = analyze_video { req with threshold := t2 } env := rfl

end SceneAnalyzer
